import Mathlib

/-!
Verification of the CXXRTL testbench for `viterbi_top`
(`viterbi_cxxrtl_tb.cpp`) against its natural-language specification.

The development shallowly embeds the testbench:

* the input byte stream (read through `getchar`) becomes a `List Nat` of the
  remaining bytes; an exhausted stream is the empty list, on which `getchar`
  yields `EOF = -1` on every call;
* `viterbi_getc_value` becomes `Viterbi.viterbi_getc_value`, a structurally
  recursive function on the remaining stream.  The C loop skips every
  character `c ≤ 32`; since `EOF = -1 ≤ 32`, the loop never exits once the
  stream is exhausted, which the embedding records with the distinguished
  result `GetcOutcome.hang`.  The step-accurate, fuel-indexed `getcIter`
  below justifies this reading;
* the device under test (an opaque CXXRTL design with ports `p_clk`,
  `p_sync__tb__clk`, `p_x0`, `p_x1`, `p_data`, `p_data__valid` and a `step`
  delta-cycle advance) becomes an abstract `Design σ` record of port writes,
  an advance function and two output reads;
* `viterbi_clock_and_output` and the `for (i = 0; i < 256; i++)` driver loop
  of `main` become `Viterbi.viterbi_clock_and_output` and `Viterbi.mainLoop`.
  The loop model emits an event log (`Ev`): one `read` event per completed
  `viterbi_getc_value` call, one `sample` event per `w.sample(j)` call, one
  `half` event per `viterbi_clock_and_output` call (recording the values held
  by the `x0`/`x1` input ports) and one `emit` event per line printed by the
  output gate.  VCD signal registration and the final buffer write do not
  influence any modelled observable and are omitted.
-/

namespace Viterbi

/-- Result of one `viterbi_getc_value` call on the remaining input stream:
`ok v rest` models `return 0` after decoding the value `v` (the C local
`value = c - 48` or `value = c - 97`) with `rest` the unread stream suffix;
`stop rest` models `return -1` (the comment in the source calls it "end of
input", but it is reached only on a byte above 0x20 that is neither a digit
nor a lowercase letter); `hang` models the case in which the C loop never
returns because `getchar` keeps yielding `EOF = -1`, which the `c <= 32`
branch skips as whitespace forever. -/
inductive GetcOutcome where
  | ok (v : Nat) (rest : List Nat)
  | stop (rest : List Nat)
  | hang
  deriving DecidableEq

/-- Embedding of `viterbi_getc_value` (lines 30-56 of the source): read one
byte at a time; `48 ≤ c < 58` decodes to `c - 48`, `97 ≤ c < 123` decodes to
`c - 97`, `c ≤ 32` is skipped, any other byte returns `-1`.  The empty list
is the exhausted stream, where `getchar` returns `EOF = -1 ≤ 32` on every
call and the loop diverges (`hang`); `getcIter` below is the step-accurate
version of the same loop. -/
def viterbi_getc_value : List Nat → GetcOutcome
  | [] => .hang
  | c :: rest =>
    if 48 ≤ c ∧ c < 58 then .ok (c - 48) rest
    else if 97 ≤ c ∧ c < 123 then .ok (c - 97) rest
    else if c ≤ 32 then viterbi_getc_value rest
    else .stop rest

/-- Step-accurate version of the `while (1)` loop in `viterbi_getc_value`:
one unit of fuel per loop iteration, `none` when the fuel runs out before
the function returns.  On the exhausted stream the iteration consumes fuel
without returning (`getchar` yields `EOF = -1`, which falls into the
`c <= 32` skip branch), exactly as the C loop does. -/
def getcIter : Nat → List Nat → Option GetcOutcome
  | 0, _ => none
  | fuel + 1, [] => getcIter fuel []
  | fuel + 1, c :: rest =>
    if 48 ≤ c ∧ c < 58 then some (.ok (c - 48) rest)
    else if 97 ≤ c ∧ c < 123 then some (.ok (c - 97) rest)
    else if c ≤ 32 then getcIter fuel rest
    else some (.stop rest)

/-- On the exhausted stream the decoder loop never returns, whatever the
fuel: `getchar` yields `EOF = -1` forever and the `c <= 32` branch skips it
as whitespace. -/
theorem getcIter_nil : ∀ fuel, getcIter fuel [] = none := by
  intro fuel
  induction fuel with
  | zero => rfl
  | succ f ih => simpa [getcIter] using ih

/-- Whenever the structural embedding reports divergence, the fuel-indexed
loop indeed never returns. -/
theorem getcIter_of_hang :
    ∀ (s : List Nat), viterbi_getc_value s = .hang →
      ∀ fuel, getcIter fuel s = none := by
  intro s hs fuel
  induction fuel generalizing s with
  | zero => rfl
  | succ f ih =>
    cases s with
    | nil => simpa [getcIter] using getcIter_nil f
    | cons c rest =>
      by_cases hd : 48 ≤ c ∧ c < 58
      · simp [viterbi_getc_value, hd] at hs
      · by_cases hl : 97 ≤ c ∧ c < 123
        · simp [viterbi_getc_value, hd, hl] at hs
        · by_cases hw : c ≤ 32
          · have hs' : viterbi_getc_value rest = .hang := by
              simpa [viterbi_getc_value, hd, hl, hw] using hs
            simpa [getcIter, hd, hl, hw] using ih rest hs'
          · simp [viterbi_getc_value, hd, hl, hw] at hs

/-- Whenever the structural embedding reports a returning call, the
fuel-indexed loop returns the same result once it has at least one unit of
fuel per unread byte. -/
theorem getcIter_complete :
    ∀ (s : List Nat), viterbi_getc_value s ≠ .hang →
      getcIter (s.length + 1) s = some (viterbi_getc_value s) := by
  intro s hs
  induction s with
  | nil => simp [viterbi_getc_value] at hs
  | cons c rest ih =>
    by_cases hd : 48 ≤ c ∧ c < 58
    · simp [viterbi_getc_value, getcIter, hd]
    · by_cases hl : 97 ≤ c ∧ c < 123
      · simp [viterbi_getc_value, getcIter, hd, hl]
      · by_cases hw : c ≤ 32
        · have hs' : viterbi_getc_value rest ≠ .hang := by
            simpa [viterbi_getc_value, hd, hl, hw] using hs
          have := ih hs'
          simpa [viterbi_getc_value, getcIter, hd, hl, hw] using this
        · simp [viterbi_getc_value, getcIter, hd, hl, hw]

/-- Modelled from the spec: the write `val->set(value)` performed by
`viterbi_getc_value` targets a CXXRTL `value<Bits>` port of the generated
design; neither the CXXRTL runtime nor the generated design is part of this
repository's sources.  Per spec §3 ("assigning an out-of-range value is
undefined and must be rejected or masked, not silently widened") and §7
("must be masked/truncated by the Port Assigner"), the write truncates the
decoded value to the port's bit width `w`. -/
def portSet (w v : Nat) : Nat := v % 2 ^ w

/-- Sequence of decoded values produced by iterating `viterbi_getc_value`
on a stream until it stops or diverges (the values the Port Assigner would
receive, before any port-width truncation). -/
def decodedValues : List Nat → List Nat
  | [] => []
  | c :: rest =>
    if 48 ≤ c ∧ c < 58 then (c - 48) :: decodedValues rest
    else if 97 ≤ c ∧ c < 123 then (c - 97) :: decodedValues rest
    else if c ≤ 32 then decodedValues rest
    else []

/-- `decodedValues` is the iteration of `viterbi_getc_value`: each
successful call contributes its value, a stop or a divergence ends the
sequence. -/
theorem decodedValues_eq_getc :
    ∀ s : List Nat,
      decodedValues s =
        (match viterbi_getc_value s with
          | .ok v r => v :: decodedValues r
          | .stop _ => []
          | .hang => []) := by
  intro s
  induction s with
  | nil => rfl
  | cons c rest ih =>
    by_cases hd : 48 ≤ c ∧ c < 58
    · simp [decodedValues, viterbi_getc_value, hd]
    · by_cases hl : 97 ≤ c ∧ c < 123
      · simp [decodedValues, viterbi_getc_value, hd, hl]
      · by_cases hw : c ≤ 32
        · simpa [decodedValues, viterbi_getc_value, hd, hl, hw] using ih
        · simp [decodedValues, viterbi_getc_value, hd, hl, hw]

/-- Definition following the words of claim C7 (spec §4.1): the decoder
skips every byte `≤ 0x20`, then consumes exactly one meaningful character —
a digit decodes to `c - 48`, a lowercase letter to `c - 97`, anything else
stops decoding.  (The claim is silent about the exhausted stream; `hang`
mirrors the code there, see `getcIter_nil`.) -/
def symbolDecoderSpec (s : List Nat) : GetcOutcome :=
  match s.dropWhile (fun b => decide (b ≤ 32)) with
  | [] => .hang
  | c :: rest =>
    if 48 ≤ c ∧ c < 58 then .ok (c - 48) rest
    else if 97 ≤ c ∧ c < 123 then .ok (c - 97) rest
    else .stop rest

/-- `t` is obtained from `s` by inserting extra whitespace/control bytes
(`≤ 0x20`) at arbitrary positions. -/
inductive wsInsert : List Nat → List Nat → Prop
  | nil : wsInsert [] []
  | keep (c : Nat) {s t : List Nat} : wsInsert s t → wsInsert (c :: s) (c :: t)
  | pad {c : Nat} {s t : List Nat} : c ≤ 32 → wsInsert s t → wsInsert s (c :: t)

/-- Interface of the device under test, `cxxrtl_design::p_top`: the spec
treats the DUT as "an opaque stateful object exposing named bit-vector
ports ... and a single advance-one-delta-cycle operation".  `setClk`,
`setTbClk`, `setX0`, `setX1` model assignments to `p_clk`,
`p_sync__tb__clk`, `p_x0`, `p_x1`; `step` models `top.step()`; `data` and
`dataValid` model the reads `p_data.get` and `p_data__valid.get`. -/
structure Design (σ : Type) where
  setClk : Nat → σ → σ
  setTbClk : Nat → σ → σ
  setX0 : Nat → σ → σ
  setX1 : Nat → σ → σ
  step : σ → σ
  data : σ → Nat
  dataValid : σ → Nat

/-- Embedding of `viterbi_clock_and_output` (lines 9-28 of the source) over
an abstract design: assign `p_clk := sync_clk`; `step()`; assign
`p_sync__tb__clk := 0`; `step()`; assign `p_sync__tb__clk := 1`; then read
`p_data` and `p_data__valid` and, only when the validity flag equals 1,
print the data value followed by a newline.  The returned pair is the DUT
state after the sequence and the optionally printed line (the C function
itself always returns the integer 0, which carries no information). -/
def viterbi_clock_and_output (d : Design σ) (s : σ) (sync_clk : Nat) :
    σ × Option String :=
  let s1 := d.setClk sync_clk s
  let s2 := d.step s1
  let s3 := d.setTbClk 0 s2
  let s4 := d.step s3
  let s5 := d.setTbClk 1 s4
  let out_data := d.data s5
  let out_data_valid := d.dataValid s5
  (s5, if out_data_valid = 1 then some (toString out_data ++ "\n") else none)

/-- Mutating operations of the `Design` interface, used to observe the
order in which `viterbi_clock_and_output` drives the DUT. -/
inductive DOp where
  | setClk (level : Nat)
  | setTb (level : Nat)
  | setX0 (v : Nat)
  | setX1 (v : Nat)
  | step
  deriving DecidableEq

/-- Is this operation a `step()` delta-cycle advance? -/
def DOp.isStep : DOp → Bool
  | .step => true
  | _ => false

/-- Recording instance of the design interface: the state is the list of
mutating operations performed so far, in order; the output ports read 0. -/
def recD : Design (List DOp) where
  setClk := fun L s => s ++ [DOp.setClk L]
  setTbClk := fun L s => s ++ [DOp.setTb L]
  setX0 := fun v s => s ++ [DOp.setX0 v]
  setX1 := fun v s => s ++ [DOp.setX1 v]
  step := fun s => s ++ [DOp.step]
  data := fun _ => 0
  dataValid := fun _ => 0

/-- Trivial concrete design: stateless, outputs always 0 (so the validity
flag is never asserted). -/
def trivD : Design Unit where
  setClk := fun _ s => s
  setTbClk := fun _ s => s
  setX0 := fun _ s => s
  setX1 := fun _ s => s
  step := fun s => s
  data := fun _ => 0
  dataValid := fun _ => 0

/-- Concrete design whose data output reads 7 with the validity flag always
asserted. -/
def validD : Design Unit where
  setClk := fun _ s => s
  setTbClk := fun _ s => s
  setX0 := fun _ s => s
  setX1 := fun _ s => s
  step := fun s => s
  data := fun _ => 7
  dataValid := fun _ => 1

/-- Concrete design that counts `step()` calls and asserts the validity
flag exactly when three advances have happened — it distinguishes the
half-tick sequence of the code (two advances) from the sequence claimed by
the spec (an advance after each of the three clock assignments). -/
def stepCountD : Design Nat where
  setClk := fun _ s => s
  setTbClk := fun _ s => s
  setX0 := fun _ s => s
  setX1 := fun _ s => s
  step := fun s => s + 1
  data := fun s => s
  dataValid := fun s => if s = 3 then 1 else 0

/-- Observable events of one run of the driver loop in `main`:
`read target result` records a completed `viterbi_getc_value` call
(`target` 0 for `p_x0`, 1 for `p_x1`; `result` the returned status);
`sample t` records a `w.sample(j)` call with timestamp `j = t`;
`half level x0 x1` records a `viterbi_clock_and_output` call with the given
`sync_clk` level while the input ports hold `x0`/`x1`; `emit line` records
a line printed by the output gate. -/
inductive Ev where
  | read (target : Nat) (result : Int)
  | sample (t : Nat)
  | half (level x0 x1 : Nat)
  | emit (line : String)
  deriving DecidableEq

/-- Mutable state of `main`'s driver loop: loop counter `i`, last
`viterbi_getc_value` status `input`, the values currently held by the two
symbol input ports, the VCD timestamp `j`, the unread input stream and the
DUT state. -/
structure LoopState (σ : Type) where
  i : Nat
  input : Int
  x0 : Nat
  x1 : Nat
  j : Nat
  stream : List Nat
  dut : σ

/-- Result of the refill phase of one loop iteration (lines 76-86 of the
source): either some `viterbi_getc_value` call diverged (`hangs`, with the
events of the calls that did complete), or the iteration continues with an
updated loop state. -/
inductive RefillResult (σ : Type) where
  | hangs (events : List Ev)
  | cont (events : List Ev) (st : LoopState σ)

/-- Refill phase of one driver-loop iteration: when the last status is 0,
read a value into `p_x0`; if that succeeds, read a value into `p_x1` and
reset the loop counter to 0 (the reset happens whether or not the second
read succeeds, exactly as in the source, where `i = 0` follows the second
`viterbi_getc_value` call unconditionally).  Port writes truncate to the
port widths `w0`/`w1` (`portSet`). -/
def refill (d : Design σ) (w0 w1 : Nat) (st : LoopState σ) : RefillResult σ :=
  if st.input = 0 then
    match viterbi_getc_value st.stream with
    | .hang => .hangs []
    | .stop rest =>
        .cont [Ev.read 0 (-1)] { st with input := -1, stream := rest }
    | .ok v rest =>
        let x0n := portSet w0 v
        let s0 := d.setX0 x0n st.dut
        match viterbi_getc_value rest with
        | .hang => .hangs [Ev.read 0 0]
        | .stop rest2 =>
            .cont [Ev.read 0 0, Ev.read 1 (-1)]
              { st with i := 0, input := -1, x0 := x0n, stream := rest2, dut := s0 }
        | .ok v1 rest2 =>
            let x1n := portSet w1 v1
            .cont [Ev.read 0 0, Ev.read 1 0]
              { st with i := 0, input := 0, x0 := x0n, x1 := x1n,
                        stream := rest2, dut := d.setX1 x1n s0 }
  else .cont [] st

/-- Events of an optionally printed line. -/
def optEmit : Option String → List Ev
  | some line => [Ev.emit line]
  | none => []

/-- Clocking phase of one driver-loop iteration (lines 88-102 of the
source): when capture is enabled, `w.sample(j)` and `j += 1`; then
`viterbi_clock_and_output` with `sync_clk = 0`; the same sample step again;
then `viterbi_clock_and_output` with `sync_clk = 1`.  (The second tick of
the doubled-rate variant is commented out in the source and not modelled.) -/
def tickPhase (d : Design σ) (capture_vcd : Bool) (st : LoopState σ) :
    List Ev × LoopState σ :=
  let sEvs0 := if capture_vcd then [Ev.sample st.j] else []
  let j0 := if capture_vcd then st.j + 1 else st.j
  let t0 := viterbi_clock_and_output d st.dut 0
  let e0 := Ev.half 0 st.x0 st.x1 :: optEmit t0.2
  let sEvs1 := if capture_vcd then [Ev.sample j0] else []
  let j1 := if capture_vcd then j0 + 1 else j0
  let t1 := viterbi_clock_and_output d t0.1 1
  let e1 := Ev.half 1 st.x0 st.x1 :: optEmit t1.2
  (sEvs0 ++ e0 ++ sEvs1 ++ e1, { st with j := j1, dut := t1.1 })

/-- Events of a refill-phase result. -/
def refillEvents : RefillResult σ → List Ev
  | .hangs evs => evs
  | .cont evs _ => evs

/-- State with which the next loop iteration starts once an iteration's
refill and clocking phases are done: the state left by `tickPhase`, with
the loop counter incremented (the `i++` of the `for` statement). -/
def nextState (d : Design σ) (capture_vcd : Bool) (st1 : LoopState σ) :
    LoopState σ :=
  { (tickPhase d capture_vcd st1).2 with
      i := (tickPhase d capture_vcd st1).2.i + 1 }

/-- Result of running the driver loop: `done` models `main` leaving the
loop and returning exit code 0, `hangs` models a diverging
`viterbi_getc_value` call, `outOfFuel` means the model ran out of fuel
before either happened.  Each constructor carries the events of the run's
remainder. -/
inductive Outcome where
  | done (events : List Ev)
  | hangs (events : List Ev)
  | outOfFuel (events : List Ev)
  deriving DecidableEq

/-- Prepend events to an outcome's event list. -/
def Outcome.pre (evs : List Ev) : Outcome → Outcome
  | .done l => .done (evs ++ l)
  | .hangs l => .hangs (evs ++ l)
  | .outOfFuel l => .outOfFuel (evs ++ l)

/-- Events of an outcome. -/
def outcomeEvents : Outcome → List Ev
  | .done l => l
  | .hangs l => l
  | .outOfFuel l => l

/-- Did the loop exit normally (i.e. `main` reached `return 0`)? -/
def isDone : Outcome → Bool
  | .done _ => true
  | _ => false

/-- Embedding of the driver loop `for (int i = 0; i < 256; i++) { ... }` of
`main` (lines 74-119 of the source): while `i < 256`, run the refill phase
(`refill`), then the sampling/clocking phase (`tickPhase`), then increment
the loop counter.  One unit of fuel bounds one loop iteration; the C loop
itself has no other exit than `i` reaching 256 or a diverging
`viterbi_getc_value` call. -/
def mainLoop (d : Design σ) (w0 w1 : Nat) (capture_vcd : Bool) :
    Nat → LoopState σ → Outcome
  | 0, _ => .outOfFuel []
  | fuel + 1, st =>
    if st.i < 256 then
      match refill d w0 w1 st with
      | .hangs evs => .hangs evs
      | .cont evs st1 =>
        Outcome.pre (evs ++ (tickPhase d capture_vcd st1).1)
          (mainLoop d w0 w1 capture_vcd fuel (nextState d capture_vcd st1))
    else .done []

/-- Number of `sample` events. -/
def countSample (l : List Ev) : Nat :=
  l.countP fun e => match e with | Ev.sample _ => true | _ => false

/-- Number of `half` events (each a `viterbi_clock_and_output` call, i.e. a
half-tick; a full tick is two of them). -/
def countHalf (l : List Ev) : Nat :=
  l.countP fun e => match e with | Ev.half _ _ _ => true | _ => false

/-- Number of `read` events (each a completed `viterbi_getc_value` call). -/
def countRead (l : List Ev) : Nat :=
  l.countP fun e => match e with | Ev.read _ _ => true | _ => false

/-- Do all half-tick events carry the port values `a` and `b`? -/
def halfUses (a b : Nat) (l : List Ev) : Bool :=
  l.all fun e => match e with
    | Ev.half _ x y => x == a && y == b
    | _ => true

/-- Events that follow the first `read` of `p_x1` returning `-1` (the
"end-of-input in the middle of a symbol pair" moment). -/
def afterX1Stop : List Ev → List Ev
  | [] => []
  | Ev.read 1 (-1) :: rest => rest
  | _ :: rest => afterX1Stop rest

/-- Does the list contain a half-tick whose `x0` port value is `v`? -/
def hasHalfX0 (v : Nat) (l : List Ev) : Bool :=
  l.any fun e => match e with
    | Ev.half _ x _ => x == v
    | _ => false

theorem outcomeEvents_pre (evs : List Ev) (o : Outcome) :
    outcomeEvents (Outcome.pre evs o) = evs ++ outcomeEvents o := by
  cases o <;> rfl

theorem isDone_pre (evs : List Ev) (o : Outcome) :
    isDone (Outcome.pre evs o) = isDone o := by
  cases o <;> rfl

theorem countSample_append (l1 l2 : List Ev) :
    countSample (l1 ++ l2) = countSample l1 + countSample l2 :=
  List.countP_append _ _ _

theorem countHalf_append (l1 l2 : List Ev) :
    countHalf (l1 ++ l2) = countHalf l1 + countHalf l2 :=
  List.countP_append _ _ _

theorem countRead_append (l1 l2 : List Ev) :
    countRead (l1 ++ l2) = countRead l1 + countRead l2 :=
  List.countP_append _ _ _

theorem halfUses_append (a b : Nat) (l1 l2 : List Ev) :
    halfUses a b (l1 ++ l2) = (halfUses a b l1 && halfUses a b l2) := by
  simp [halfUses, List.all_append]

theorem countSample_optEmit (o : Option String) : countSample (optEmit o) = 0 := by
  cases o <;> simp [optEmit, countSample]

theorem countHalf_optEmit (o : Option String) : countHalf (optEmit o) = 0 := by
  cases o <;> simp [optEmit, countHalf]

theorem countRead_optEmit (o : Option String) : countRead (optEmit o) = 0 := by
  cases o <;> simp [optEmit, countRead]

theorem halfUses_optEmit (a b : Nat) (o : Option String) :
    halfUses a b (optEmit o) = true := by
  cases o <;> simp [optEmit, halfUses]

theorem countSample_cons_sample (t : Nat) (l : List Ev) :
    countSample (Ev.sample t :: l) = countSample l + 1 := by
  simp [countSample, List.countP_cons]

theorem countSample_cons_half (L a b : Nat) (l : List Ev) :
    countSample (Ev.half L a b :: l) = countSample l := by
  simp [countSample, List.countP_cons]

theorem countHalf_cons_sample (t : Nat) (l : List Ev) :
    countHalf (Ev.sample t :: l) = countHalf l := by
  simp [countHalf, List.countP_cons]

theorem countHalf_cons_half (L a b : Nat) (l : List Ev) :
    countHalf (Ev.half L a b :: l) = countHalf l + 1 := by
  simp [countHalf, List.countP_cons]

theorem countRead_cons_sample (t : Nat) (l : List Ev) :
    countRead (Ev.sample t :: l) = countRead l := by
  simp [countRead, List.countP_cons]

theorem countRead_cons_half (L a b : Nat) (l : List Ev) :
    countRead (Ev.half L a b :: l) = countRead l := by
  simp [countRead, List.countP_cons]

theorem halfUses_cons_sample (a b t : Nat) (l : List Ev) :
    halfUses a b (Ev.sample t :: l) = halfUses a b l := by
  simp [halfUses]

theorem halfUses_cons_half_self (a b L : Nat) (l : List Ev) :
    halfUses a b (Ev.half L a b :: l) = halfUses a b l := by
  simp [halfUses]

/-- Event counts and state effects of the sampling/clocking phase of one
iteration: two sample events exactly when capture is enabled, two half-tick
events carrying the current port values, no read events; the loop counter,
status, port values and unread stream are untouched. -/
theorem tickPhase_events (d : Design σ) (capture_vcd : Bool) (st : LoopState σ) :
    countSample (tickPhase d capture_vcd st).1 = (if capture_vcd then 2 else 0) ∧
    countHalf (tickPhase d capture_vcd st).1 = 2 ∧
    countRead (tickPhase d capture_vcd st).1 = 0 ∧
    halfUses st.x0 st.x1 (tickPhase d capture_vcd st).1 = true ∧
    (tickPhase d capture_vcd st).2.i = st.i ∧
    (tickPhase d capture_vcd st).2.input = st.input ∧
    (tickPhase d capture_vcd st).2.x0 = st.x0 ∧
    (tickPhase d capture_vcd st).2.x1 = st.x1 ∧
    (tickPhase d capture_vcd st).2.stream = st.stream := by
  cases capture_vcd <;>
    simp only [tickPhase, if_true, if_false, Bool.false_eq_true,
      List.nil_append, List.cons_append, List.singleton_append,
      countSample_append, countHalf_append, countRead_append, halfUses_append,
      countSample_cons_sample, countSample_cons_half,
      countHalf_cons_sample, countHalf_cons_half,
      countRead_cons_sample, countRead_cons_half,
      halfUses_cons_sample, halfUses_cons_half_self,
      countSample_optEmit, countHalf_optEmit, countRead_optEmit,
      halfUses_optEmit] <;>
    simp [countSample, countHalf, countRead, halfUses]

/-- When the last read status is nonzero (the stop status `-1`), the refill
phase reads nothing and leaves the loop state unchanged. -/
theorem refill_stopped (d : Design σ) (w0 w1 : Nat) (st : LoopState σ)
    (h : st.input ≠ 0) : refill d w0 w1 st = .cont [] st := by
  simp [refill, h]

/-- The refill phase only ever produces read events. -/
theorem refill_events (d : Design σ) (w0 w1 : Nat) (st : LoopState σ) :
    countSample (refillEvents (refill d w0 w1 st)) = 0 ∧
    countHalf (refillEvents (refill d w0 w1 st)) = 0 := by
  by_cases h : st.input = 0
  · cases h0 : viterbi_getc_value st.stream with
    | hang => simp [refill, h, h0, refillEvents]; decide
    | stop rest => simp [refill, h, h0, refillEvents]; decide
    | ok v rest =>
      cases h1 : viterbi_getc_value rest with
      | hang => simp [refill, h, h0, h1, refillEvents]; decide
      | stop rest2 => simp [refill, h, h0, h1, refillEvents]; decide
      | ok v1 rest2 => simp [refill, h, h0, h1, refillEvents]; decide
  · simp [refill, h, refillEvents]; decide

theorem countSample_nil : countSample [] = 0 := rfl

theorem countHalf_nil : countHalf [] = 0 := rfl

theorem countRead_nil : countRead [] = 0 := rfl

theorem halfUses_nil (a b : Nat) : halfUses a b [] = true := rfl

/-- Claim C7: for every byte read by the symbol decoder, a digit byte
decodes to `c - 48` with success, a lowercase letter byte to `c - 97` with
success, a byte `≤ 0x20` is skipped and the next byte examined, and any
other byte stops decoding; each successful call consumes exactly one
meaningful character.  Stated as: `viterbi_getc_value` coincides with
`symbolDecoderSpec`, the function written from the claim's words (skip the
whitespace prefix, then consume exactly one byte and classify it). -/
theorem getc_decodes_bytes :
    ∀ s : List Nat, viterbi_getc_value s = symbolDecoderSpec s := by
  intro s
  induction s with
  | nil => rfl
  | cons c rest ih =>
    by_cases hw : c ≤ 32
    · have hd : ¬(48 ≤ c ∧ c < 58) := by omega
      have hl : ¬(97 ≤ c ∧ c < 123) := by omega
      simpa [viterbi_getc_value, symbolDecoderSpec, List.dropWhile_cons, hw, hd, hl]
        using ih
    · by_cases hd : 48 ≤ c ∧ c < 58
      · simp [viterbi_getc_value, symbolDecoderSpec, List.dropWhile_cons, hw, hd]
      · by_cases hl : 97 ≤ c ∧ c < 123
        · simp [viterbi_getc_value, symbolDecoderSpec, List.dropWhile_cons, hw, hd, hl]
        · simp [viterbi_getc_value, symbolDecoderSpec, List.dropWhile_cons, hw, hd, hl]

/-- Claim C9: inserting any number of whitespace/control bytes (`≤ 0x20`)
into an input stream leaves the sequence of values decoded by iterating
`viterbi_getc_value` unchanged. -/
theorem decoded_ws_invariant :
    ∀ {s t : List Nat}, wsInsert s t → decodedValues t = decodedValues s := by
  intro s t h
  induction h with
  | nil => rfl
  | keep c h ih =>
    by_cases hd : 48 ≤ c ∧ c < 58
    · simp [decodedValues, hd, ih]
    · by_cases hl : 97 ≤ c ∧ c < 123
      · simp [decodedValues, hd, hl, ih]
      · by_cases hw : c ≤ 32
        · simp [decodedValues, hd, hl, hw, ih]
        · simp [decodedValues, hd, hl, hw]
  | @pad c s' t' hc h ih =>
    have hd : ¬(48 ≤ c ∧ c < 58) := by omega
    have hl : ¬(97 ≤ c ∧ c < 123) := by omega
    simpa [decodedValues, hd, hl, hc] using ih

/-- Witness for C9 at a concrete input: inserting a space between the two
meaningful bytes of "12" leaves the decoded sequence unchanged. -/
theorem decoded_ws_invariant_wit :
    decodedValues [49, 32, 50] = decodedValues [49, 50] :=
  decoded_ws_invariant
    (wsInsert.keep 49 (wsInsert.pad (by decide) (wsInsert.keep 50 wsInsert.nil)))

/-- Claim C6: a successfully decoded lowercase-letter value (0-25, possibly
wider than the target port) is written truncated to the port's bit width
`w` — the written value always fits in `w` bits and is the decoded value
modulo `2 ^ w` — and the call still reports success, so the overflow is
never surfaced to the caller. -/
theorem letter_overflow_masked :
    ∀ (b : Nat) (rest : List Nat) (w : Nat), 97 ≤ b → b < 123 →
      viterbi_getc_value (b :: rest) = GetcOutcome.ok (b - 97) rest ∧
      portSet w (b - 97) < 2 ^ w ∧
      portSet w (b - 97) % 2 ^ w = (b - 97) % 2 ^ w := by
  intro b rest w hb1 hb2
  refine ⟨?_, ?_, ?_⟩
  · by_cases hd : 48 ≤ b ∧ b < 58
    · omega
    · simp [viterbi_getc_value, hd, And.intro hb1 hb2]
  · exact Nat.mod_lt _ (pow_pos (by norm_num) w)
  · simp [portSet, Nat.mod_mod_of_dvd _ dvd_rfl]

/-- Witness for C6: the letter 'z' (byte 122, value 25) written to a
1-bit-wide port is truncated to 1 and the call reports success. -/
theorem letter_overflow_masked_wit :
    viterbi_getc_value [122] = GetcOutcome.ok 25 [] ∧
    portSet 1 25 < 2 ^ 1 ∧
    portSet 1 25 % 2 ^ 1 = 25 % 2 ^ 1 :=
  letter_overflow_masked 122 [] 1 (by decide) (by decide)

/-- Claim C8: the output gate inside `viterbi_clock_and_output` never
prints when the validity flag output reads 0 after the half-tick, and when
the flag reads 1 it prints the data output value as a decimal integer
followed by a newline. -/
theorem output_gate_guard :
    ∀ (σ : Type) (d : Design σ) (s : σ) (L : Nat),
      (d.dataValid (viterbi_clock_and_output d s L).1 = 0 →
        (viterbi_clock_and_output d s L).2 = none) ∧
      (d.dataValid (viterbi_clock_and_output d s L).1 = 1 →
        (viterbi_clock_and_output d s L).2 =
          some (toString (d.data (viterbi_clock_and_output d s L).1) ++ "\n")) := by
  intro σ d s L
  refine ⟨fun h => ?_, fun h => ?_⟩
  · simp only [viterbi_clock_and_output] at h ⊢
    simp [h]
  · simp only [viterbi_clock_and_output] at h ⊢
    simp [h]

/-- Witness for C8: with a design whose validity flag reads 0 nothing is
printed; with one whose flag reads 1 and whose data output reads 7, the
line "7\n" is printed. -/
theorem output_gate_guard_wit :
    (viterbi_clock_and_output trivD () 0).2 = none ∧
    (viterbi_clock_and_output validD () 0).2 = some (toString 7 ++ "\n") :=
  ⟨(output_gate_guard Unit trivD () 0).1 rfl,
   (output_gate_guard Unit validD () 0).2 rfl⟩

/-- Claim C5 (amended): each half-tick drives the design interface in the
exact order: assign the external clock to the caller's level `L`, advance;
assign the testbench-domain clock to 0, advance; assign the
testbench-domain clock to 1 with NO advance after it; the data and validity
outputs are then read from the state produced by that final assignment. -/
theorem half_tick_sequence :
    (∀ (s : List DOp) (L : Nat),
      (viterbi_clock_and_output recD s L).1 =
        s ++ [DOp.setClk L, DOp.step, DOp.setTb 0, DOp.step, DOp.setTb 1]) ∧
    (∀ (σ : Type) (d : Design σ) (s : σ) (L : Nat),
      (viterbi_clock_and_output d s L).2 =
        (if d.dataValid (viterbi_clock_and_output d s L).1 = 1
         then some (toString (d.data (viterbi_clock_and_output d s L).1) ++ "\n")
         else none)) := by
  constructor
  · intro s L
    simp [viterbi_clock_and_output, recD]
  · intro σ d s L
    simp [viterbi_clock_and_output]

/-- Counterexample to C5 as stated: the operation sequence of one half-tick
contains exactly two `step()` advances, not one after each of the three
clock assignments (no advance follows the final assignment of the
testbench-domain clock); a design that counts advances confirms only two
advances happen. -/
theorem half_tick_sequence_cex :
    (viterbi_clock_and_output recD [] 0).1 ≠
      [DOp.setClk 0, DOp.step, DOp.setTb 0, DOp.step, DOp.setTb 1, DOp.step] ∧
    (viterbi_clock_and_output recD [] 0).1.countP DOp.isStep = 2 ∧
    (viterbi_clock_and_output stepCountD 0 0).1 = 2 := by
  decide

theorem mainLoop_succ_done (d : Design σ) (w0 w1 : Nat) (capture_vcd : Bool)
    (f : Nat) (st : LoopState σ) (hi : ¬ st.i < 256) :
    mainLoop d w0 w1 capture_vcd (f + 1) st = .done [] := by
  simp [mainLoop, hi]

theorem mainLoop_succ_hangs (d : Design σ) (w0 w1 : Nat) (capture_vcd : Bool)
    (f : Nat) (st : LoopState σ) (evs : List Ev) (hi : st.i < 256)
    (hr : refill d w0 w1 st = .hangs evs) :
    mainLoop d w0 w1 capture_vcd (f + 1) st = .hangs evs := by
  simp [mainLoop, hi, hr]

theorem mainLoop_succ_cont (d : Design σ) (w0 w1 : Nat) (capture_vcd : Bool)
    (f : Nat) (st : LoopState σ) (evs : List Ev) (st1 : LoopState σ)
    (hi : st.i < 256) (hr : refill d w0 w1 st = .cont evs st1) :
    mainLoop d w0 w1 capture_vcd (f + 1) st =
      Outcome.pre (evs ++ (tickPhase d capture_vcd st1).1)
        (mainLoop d w0 w1 capture_vcd f (nextState d capture_vcd st1)) := by
  simp [mainLoop, hi, hr]

theorem nextState_fields (d : Design σ) (capture_vcd : Bool)
    (st1 : LoopState σ) :
    (nextState d capture_vcd st1).i = st1.i + 1 ∧
    (nextState d capture_vcd st1).input = st1.input ∧
    (nextState d capture_vcd st1).x0 = st1.x0 ∧
    (nextState d capture_vcd st1).x1 = st1.x1 ∧
    (nextState d capture_vcd st1).stream = st1.stream := by
  obtain ⟨_, _, _, _, hti, htin, htx0, htx1, htst⟩ :=
    tickPhase_events d capture_vcd st1
  exact ⟨by simp [nextState, hti], by simp [nextState, htin],
    by simp [nextState, htx0], by simp [nextState, htx1],
    by simp [nextState, htst]⟩

/-- Loop invariant: over any run of the driver loop, the events carry
exactly one sample per half-tick when capture is enabled and no sample at
all otherwise, and half-ticks come in pairs (every iteration performs two
`viterbi_clock_and_output` calls). -/
theorem mainLoop_sample_half (d : Design σ) (w0 w1 : Nat)
    (capture_vcd : Bool) :
    ∀ (fuel : Nat) (st : LoopState σ),
      countSample (outcomeEvents (mainLoop d w0 w1 capture_vcd fuel st)) =
        (if capture_vcd then
          countHalf (outcomeEvents (mainLoop d w0 w1 capture_vcd fuel st))
         else 0) ∧
      countHalf (outcomeEvents (mainLoop d w0 w1 capture_vcd fuel st)) % 2 = 0 := by
  intro fuel
  induction fuel with
  | zero =>
    intro st
    cases capture_vcd <;> simp [mainLoop, outcomeEvents, countSample_nil, countHalf_nil]
  | succ f ih =>
    intro st
    by_cases hi : st.i < 256
    · cases hr : refill d w0 w1 st with
      | hangs evs =>
        have hre := refill_events d w0 w1 st
        rw [hr] at hre
        simp only [refillEvents] at hre
        rw [mainLoop_succ_hangs d w0 w1 capture_vcd f st evs hi hr]
        cases capture_vcd <;> simp [outcomeEvents, hre.1, hre.2]
      | cont evs st1 =>
        have hre := refill_events d w0 w1 st
        rw [hr] at hre
        simp only [refillEvents] at hre
        obtain ⟨hts, hth, _, _, _, _, _, _, _⟩ := tickPhase_events d capture_vcd st1
        obtain ⟨ihs, ihh⟩ := ih (nextState d capture_vcd st1)
        rw [mainLoop_succ_cont d w0 w1 capture_vcd f st evs st1 hi hr]
        rw [outcomeEvents_pre]
        simp only [List.append_assoc, countSample_append, countHalf_append]
        rw [hre.1, hre.2, hts, hth]
        cases capture_vcd with
        | false =>
          simp only [Bool.false_eq_true, if_false] at ihs ⊢
          omega
        | true =>
          simp only [if_true] at ihs ⊢
          omega
    · rw [mainLoop_succ_done d w0 w1 capture_vcd f st hi]
      cases capture_vcd <;> simp [outcomeEvents, countSample_nil, countHalf_nil]

/-- Claim C3 (amended): over any run of the driver loop, when waveform
capture is enabled the number of trace-recorder sample calls equals exactly
2 × the number of full ticks executed — one sample immediately before each
of a tick's two `viterbi_clock_and_output` calls, so half-ticks come in
pairs and samples match half-ticks one to one — and when capture is
disabled no sample call occurs. -/
theorem sample_count_two_per_tick :
    ∀ (σ : Type) (d : Design σ) (w0 w1 : Nat) (capture_vcd : Bool)
      (fuel : Nat) (st : LoopState σ),
      countHalf (outcomeEvents (mainLoop d w0 w1 capture_vcd fuel st)) % 2 = 0 ∧
      countSample (outcomeEvents (mainLoop d w0 w1 capture_vcd fuel st)) =
        (if capture_vcd then
          2 * (countHalf (outcomeEvents (mainLoop d w0 w1 capture_vcd fuel st)) / 2)
         else 0) := by
  intro σ d w0 w1 capture_vcd fuel st
  obtain ⟨h1, h2⟩ := mainLoop_sample_half d w0 w1 capture_vcd fuel st
  cases capture_vcd with
  | false =>
    simp only [Bool.false_eq_true, if_false] at h1 ⊢
    omega
  | true =>
    simp only [if_true] at h1 ⊢
    omega

set_option maxRecDepth 100000 in
/-- Counterexample to C3 as stated: on input "1!" (bytes 49, 33) with
capture enabled, the run completes after 256 full ticks (512 half-ticks)
and records 512 samples — exactly 2 per full tick, not the claimed
4 per full tick. -/
theorem sample_count_cex :
    isDone (mainLoop trivD 1 1 true 300 ⟨0, 0, 0, 0, 0, [49, 33], ()⟩) = true ∧
    countSample (outcomeEvents
      (mainLoop trivD 1 1 true 300 ⟨0, 0, 0, 0, 0, [49, 33], ()⟩)) = 512 ∧
    countHalf (outcomeEvents
      (mainLoop trivD 1 1 true 300 ⟨0, 0, 0, 0, 0, [49, 33], ()⟩)) = 512 ∧
    countSample (outcomeEvents
        (mainLoop trivD 1 1 true 300 ⟨0, 0, 0, 0, 0, [49, 33], ()⟩)) ≠
      4 * (countHalf (outcomeEvents
        (mainLoop trivD 1 1 true 300 ⟨0, 0, 0, 0, 0, [49, 33], ()⟩)) / 2) := by
  decide

/-- Claim C10: from any loop state in which `viterbi_getc_value` has
returned the stop status (-1), the driver loop never calls the decoder
again (no read events occur), yet every remaining iteration until the
256-iteration counter expires executes one full tick — two half-ticks —
using the last values written to the X0 and X1 ports, with two trace
samples per iteration when capture is enabled and none otherwise; the loop
then exits normally (exit code 0). -/
theorem after_stop_loop_drains :
    ∀ (σ : Type) (d : Design σ) (w0 w1 : Nat) (capture_vcd : Bool)
      (fuel : Nat) (st : LoopState σ),
      st.input = -1 → 256 - st.i < fuel →
      isDone (mainLoop d w0 w1 capture_vcd fuel st) = true ∧
      countRead (outcomeEvents (mainLoop d w0 w1 capture_vcd fuel st)) = 0 ∧
      countHalf (outcomeEvents (mainLoop d w0 w1 capture_vcd fuel st)) =
        2 * (256 - st.i) ∧
      halfUses st.x0 st.x1
        (outcomeEvents (mainLoop d w0 w1 capture_vcd fuel st)) = true ∧
      countSample (outcomeEvents (mainLoop d w0 w1 capture_vcd fuel st)) =
        (if capture_vcd then 2 * (256 - st.i) else 0) := by
  intro σ d w0 w1 capture_vcd fuel
  induction fuel with
  | zero => intro st hin hf; omega
  | succ f ih =>
    intro st hin hf
    by_cases hi : st.i < 256
    · have hne : st.input ≠ 0 := by rw [hin]; decide
      have hrf := refill_stopped d w0 w1 st hne
      rw [mainLoop_succ_cont d w0 w1 capture_vcd f st [] st hi hrf]
      obtain ⟨hts, hth, htr, htu, _, _, _, _, _⟩ :=
        tickPhase_events d capture_vcd st
      obtain ⟨hni, hnin, hnx0, hnx1, _⟩ := nextState_fields d capture_vcd st
      obtain ⟨ih1, ih2, ih3, ih4, ih5⟩ :=
        ih (nextState d capture_vcd st) (by rw [hnin, hin]) (by rw [hni]; omega)
      rw [hni] at ih3 ih5
      rw [hnx0, hnx1] at ih4
      refine ⟨?_, ?_, ?_, ?_, ?_⟩
      · rw [isDone_pre]; exact ih1
      · rw [outcomeEvents_pre, List.nil_append, countRead_append, htr, ih2]
      · rw [outcomeEvents_pre, List.nil_append, countHalf_append, hth, ih3]
        omega
      · rw [outcomeEvents_pre, List.nil_append, halfUses_append, htu, ih4]
        rfl
      · rw [outcomeEvents_pre, List.nil_append, countSample_append, hts, ih5]
        cases capture_vcd with
        | false => simp only [Bool.false_eq_true, if_false]
        | true => simp only [if_true]; omega
    · rw [mainLoop_succ_done d w0 w1 capture_vcd f st hi]
      have h0 : 256 - st.i = 0 := by omega
      rw [h0]
      cases capture_vcd <;>
        simp [outcomeEvents, isDone, countRead_nil, countHalf_nil,
          countSample_nil, halfUses_nil]

/-- Witness for C10 at a concrete state: one remaining iteration
(counter at 255) with the stop status held and ports at 5 and 7 executes
exactly one further full tick with those port values, two samples, no
reads, and exits normally. -/
theorem after_stop_loop_drains_wit :
    isDone (mainLoop trivD 1 1 true 2 ⟨255, -1, 5, 7, 0, [], ()⟩) = true ∧
    countRead (outcomeEvents
      (mainLoop trivD 1 1 true 2 ⟨255, -1, 5, 7, 0, [], ()⟩)) = 0 ∧
    countHalf (outcomeEvents
      (mainLoop trivD 1 1 true 2 ⟨255, -1, 5, 7, 0, [], ()⟩)) = 2 * (256 - 255) ∧
    halfUses 5 7 (outcomeEvents
      (mainLoop trivD 1 1 true 2 ⟨255, -1, 5, 7, 0, [], ()⟩)) = true ∧
    countSample (outcomeEvents
        (mainLoop trivD 1 1 true 2 ⟨255, -1, 5, 7, 0, [], ()⟩)) =
      (if true then 2 * (256 - 255) else 0) :=
  after_stop_loop_drains Unit trivD 1 1 true 2 ⟨255, -1, 5, 7, 0, [], ()⟩
    rfl (by decide)

/-- Claim C1 (code-bug evidence): on the exhausted input stream the symbol
decoder does NOT return the stop status -1 — `getchar` keeps yielding
`EOF = -1`, which the `c <= 32` branch classifies as whitespace, so the
decoder loops forever (`hang`; step-accurately, `getcIter` returns for no
amount of fuel), and a driver-loop run that reaches the exhausted stream
with a pending refill diverges instead of terminating with exit code 0. -/
theorem input_exhaustion_hangs :
    viterbi_getc_value [] = GetcOutcome.hang ∧
    (∀ fuel, getcIter fuel [] = none) ∧
    mainLoop trivD 1 1 false 1 ⟨0, 0, 0, 0, 0, [], ()⟩ = Outcome.hangs [] :=
  ⟨rfl, getcIter_nil, rfl⟩

/-- Claim C2 (amended): on the two-byte input "12" the port assigner fills
X0 with 1 and X1 with 2 (each truncated to its port's width), exactly one
full tick (two half-ticks) executes with that pair, and the subsequent
refill attempt then spins forever on the exhausted stream (EOF is
classified as whitespace), so the program never terminates and no further
DUT advance occurs — whatever the fuel and for any design whose validity
flag is never asserted. -/
theorem run_12_one_tick_then_hangs :
    ∀ (σ : Type) (d : Design σ) (s : σ) (w0 w1 fuel : Nat),
      (∀ u : σ, d.dataValid u ≠ 1) → 2 ≤ fuel →
      mainLoop d w0 w1 false fuel ⟨0, 0, 0, 0, 0, [49, 50], s⟩ =
        Outcome.hangs [Ev.read 0 0, Ev.read 1 0,
          Ev.half 0 (portSet w0 1) (portSet w1 2),
          Ev.half 1 (portSet w0 1) (portSet w1 2)] := by
  intro σ d s w0 w1 fuel hv hf
  obtain ⟨f, rfl⟩ : ∃ f, fuel = f + 2 := ⟨fuel - 2, by omega⟩
  have h1 : viterbi_getc_value [49, 50] = GetcOutcome.ok 1 [50] := by decide
  have h2 : viterbi_getc_value [50] = GetcOutcome.ok 2 [] := by decide
  have h3 : viterbi_getc_value [] = GetcOutcome.hang := rfl
  simp [mainLoop, refill, h1, h2, h3, nextState, tickPhase,
    viterbi_clock_and_output, optEmit, Outcome.pre, hv]

/-- Witness for C2's amended claim: with 4-bit-wide ports and the trivial
design, the run on "12" hangs after one full tick with X0 = 1, X1 = 2. -/
theorem run_12_one_tick_then_hangs_wit :
    mainLoop trivD 4 4 false 2 ⟨0, 0, 0, 0, 0, [49, 50], ()⟩ =
      Outcome.hangs [Ev.read 0 0, Ev.read 1 0, Ev.half 0 1 2, Ev.half 1 1 2] := by
  have h := run_12_one_tick_then_hangs Unit trivD () 4 4 2
    (fun _ => Nat.zero_ne_one) (by decide)
  simpa [portSet] using h

/-- Counterexample to C2 as stated: on input "12" the modelled program does
not terminate at all (the refill after the one executed tick diverges on
the exhausted stream), so it cannot terminate after exactly one tick's
worth of DUT advances. -/
theorem run_12_terminates_cex :
    mainLoop trivD 4 4 false 300 ⟨0, 0, 0, 0, 0, [49, 50], ()⟩ =
      Outcome.hangs [Ev.read 0 0, Ev.read 1 0, Ev.half 0 1 2, Ev.half 1 1 2] ∧
    isDone (mainLoop trivD 4 4 false 300 ⟨0, 0, 0, 0, 0, [49, 50], ()⟩) = false := by
  decide

/-- Claim C4 (amended): when the X0 fill succeeds and the X1 fill then
returns the stop status (end-of-input mid-pair), the half-filled pair IS
clocked through — the very same iteration still executes its tick, whose
first half-tick uses the newly written X0 value (and the stale X1 value). -/
theorem midpair_stop_still_ticks :
    ∀ (σ : Type) (d : Design σ) (w0 w1 fuel : Nat) (st : LoopState σ)
      (v : Nat) (r r2 : List Nat),
      st.i < 256 → st.input = 0 →
      viterbi_getc_value st.stream = GetcOutcome.ok v r →
      viterbi_getc_value r = GetcOutcome.stop r2 →
      (outcomeEvents (mainLoop d w0 w1 false (fuel + 1) st)).take 3 =
        [Ev.read 0 0, Ev.read 1 (-1), Ev.half 0 (portSet w0 v) st.x1] := by
  intro σ d w0 w1 fuel st v r r2 hi hin h0 h1
  have hr : refill d w0 w1 st =
      .cont [Ev.read 0 0, Ev.read 1 (-1)]
        { st with i := 0, input := -1, x0 := portSet w0 v, stream := r2,
                  dut := d.setX0 (portSet w0 v) st.dut } := by
    simp [refill, hin, h0, h1]
  rw [mainLoop_succ_cont d w0 w1 false fuel st _ _ hi hr]
  rw [outcomeEvents_pre]
  simp [tickPhase, optEmit, List.take_succ_cons]

/-- Witness for C4's amended claim: on input "1!" (byte 49 then byte 33)
the iteration that sees the mid-pair stop still clocks its first half-tick
with the newly written X0 = 1. -/
theorem midpair_stop_still_ticks_wit :
    (outcomeEvents
        (mainLoop trivD 1 1 false 1 ⟨0, 0, 0, 0, 0, [49, 33], ()⟩)).take 3 =
      [Ev.read 0 0, Ev.read 1 (-1), Ev.half 0 (portSet 1 1) 0] :=
  midpair_stop_still_ticks Unit trivD 1 1 0 ⟨0, 0, 0, 0, 0, [49, 33], ()⟩
    1 [33] [] (by decide) rfl (by decide) (by decide)

set_option maxRecDepth 100000 in
/-- Counterexample to C4 as stated: on input "1!" the run completes and,
after the X1 read that returned the stop status, half-ticks using the newly
written X0 value 1 do occur. -/
theorem midpair_clocked_cex :
    isDone (mainLoop trivD 1 1 false 300 ⟨0, 0, 0, 0, 0, [49, 33], ()⟩) = true ∧
    hasHalfX0 1 (afterX1Stop (outcomeEvents
      (mainLoop trivD 1 1 false 300 ⟨0, 0, 0, 0, 0, [49, 33], ()⟩))) = true := by
  decide

end Viterbi
